import Mathlib

/-!
Verification of the caption-synchronization subsystem of this repository
(the `AudioPlayer` object of the audio module): the VTT timestamp parser,
the VTT cue parser, the time-based cue resolution, the pause handler and
the dual-transport load chain.

Modelling conventions of the shallow embedding:
* JavaScript numbers are `Option ℚ` (`none` models `NaN`; every value
  arising in the verified statements is exactly representable as a
  rational, and the arithmetic performed on them is exact).
* JavaScript strings are `List Char`; `split`, `trim`, `includes`,
  `parseInt` and `parseFloat` are modelled by structurally recursive
  functions mirroring their JavaScript semantics on the inputs the
  subsystem can meet (base-10 numerals; radix prefixes and exponent
  notation are out of scope).
* The two `while` loops of `parseVTT` are modelled by a fuel-indexed
  recursion; the fuel bounds the number of outer iterations and is
  always supplied amply (one unit per remaining line plus one).
-/

attribute [local semireducible] Rat.add Rat.mul Rat.inv Rat.sub Rat.ofScientific

/-- Numeric type of the JavaScript embedding: `none` models `NaN`,
`some q` a finite number. -/
abbrev JSNum := Option ℚ

/-- JavaScript addition: `NaN` propagates. -/
def jsAdd : JSNum → JSNum → JSNum
  | some a, some b => some (a + b)
  | _, _ => none

/-- JavaScript multiplication by a finite constant: `NaN` propagates. -/
def jsMulConst : JSNum → ℚ → JSNum
  | some a, k => some (a * k)
  | none, _ => none

/-- Embed a `parseInt` result (an integer or `NaN`) into `JSNum`. -/
def jsOfInt : Option Int → JSNum
  | some n => some ((n : ℚ))
  | none => none

/-- Characters treated as whitespace by JavaScript `trim`, `parseInt`
and `parseFloat` (the subset that can occur in this repository's data). -/
def jsWs (c : Char) : Bool :=
  c = ' ' || c = '\t' || c = '\n' || c = '\r'

/-- JavaScript `String.prototype.trim` on a list of characters. -/
def trimChars (s : List Char) : List Char :=
  ((s.dropWhile jsWs).reverse.dropWhile jsWs).reverse

/-- JavaScript `String.prototype.split` with a single-character
separator: splitting the empty string yields `[[]]`, separators at the
ends produce empty fields. -/
def splitOnChar (sep : Char) : List Char → List (List Char)
  | [] => [[]]
  | c :: cs =>
    if c = sep then [] :: splitOnChar sep cs
    else
      match splitOnChar sep cs with
      | [] => [[c]]
      | p :: ps => (c :: p) :: ps

/-- Whether the pattern `pat` occurs at the head of `s`. -/
def startsWith : List Char → List Char → Bool
  | [], _ => true
  | _ :: _, [] => false
  | p :: ps, c :: cs => p = c && startsWith ps cs

/-- JavaScript `String.prototype.includes`. -/
def containsSeq (pat : List Char) : List Char → Bool
  | [] => startsWith pat []
  | c :: cs => startsWith pat (c :: cs) || containsSeq pat cs

/-- Split `s` at the first occurrence of `pat`: the part before it and
the part after it; `none` when `pat` does not occur in `s`. -/
def breakOnSeq (pat : List Char) : List Char → Option (List Char × List Char)
  | [] => if startsWith pat [] then some ([], []) else none
  | c :: cs =>
    if startsWith pat (c :: cs) then some ([], (c :: cs).drop pat.length)
    else
      match breakOnSeq pat cs with
      | none => none
      | some (p, r) => some (c :: p, r)

/-- Fuel-indexed worker for `splitOnSeq`; the fuel bounds the number of
separator occurrences and is always supplied amply. -/
def splitOnSeqFuel (pat : List Char) : Nat → List Char → List (List Char)
  | 0, s => [s]
  | fuel + 1, s =>
    match breakOnSeq pat s with
    | none => [s]
    | some (p, r) => p :: splitOnSeqFuel pat fuel r

/-- JavaScript `String.prototype.split` with a multi-character
separator such as the timing delimiter. -/
def splitOnSeq (pat s : List Char) : List (List Char) :=
  splitOnSeqFuel pat (s.length + 1) s

/-- The timing delimiter of the subtitle format. -/
def arrowSeq : List Char := ['-', '-', '>']

/-- Whether a line contains the timing delimiter. -/
def includesArrow (s : List Char) : Bool := containsSeq arrowSeq s

/-- Decimal value of a list of digit characters, most significant first. -/
def digitsVal (ds : List Char) : Nat :=
  ds.foldl (fun acc c => acc * 10 + (c.toNat - 48)) 0

/-- JavaScript `parseInt` on base-10 numerals: skip leading whitespace,
read an optional sign and then the leading digits, ignoring trailing
junk; `none` models `NaN` (no digits found). -/
def parseIntJS (s : List Char) : Option Int :=
  let s1 := s.dropWhile jsWs
  let signed : Int × List Char :=
    match s1 with
    | '-' :: rest => (-1, rest)
    | '+' :: rest => (1, rest)
    | _ => (1, s1)
  let ds := signed.2.takeWhile Char.isDigit
  if ds.isEmpty then none else some (signed.1 * (digitsVal ds : Int))

/-- JavaScript `parseFloat` on plain decimal notation: skip leading
whitespace, read an optional sign, integer digits, an optional dot and
fraction digits, ignoring trailing junk; `none` models `NaN` (no digits
at all). -/
def parseFloatJS (s : List Char) : Option ℚ :=
  let s1 := s.dropWhile jsWs
  let signed : ℚ × List Char :=
    match s1 with
    | '-' :: rest => (-1, rest)
    | '+' :: rest => (1, rest)
    | _ => (1, s1)
  let intDs := signed.2.takeWhile Char.isDigit
  let s3 := signed.2.dropWhile Char.isDigit
  let fracDs :=
    match s3 with
    | '.' :: rest => rest.takeWhile Char.isDigit
    | _ => []
  if intDs.isEmpty && fracDs.isEmpty then none
  else some (signed.1 * ((digitsVal intDs : ℚ) + (digitsVal fracDs : ℚ) / (10 : ℚ) ^ fracDs.length))

/-- Embedding of `AudioPlayer.parseTimestamp` (src/unnamed/part_000,
lines 272-294): split on `:`, split the last colon-delimited field on
`.`, combine hours, minutes and seconds according to the number of
colon-delimited fields, then add the fractional part when present. -/
def parseTimestamp (timestamp : List Char) : JSNum :=
  let parts := splitOnChar ':' timestamp
  let seconds := splitOnChar '.' (parts.getD (parts.length - 1) [])
  let totalSeconds : JSNum :=
    if parts.length = 3 then
      jsAdd (jsAdd (jsMulConst (jsOfInt (parseIntJS (parts.getD 0 []))) 3600)
              (jsMulConst (jsOfInt (parseIntJS (parts.getD 1 []))) 60))
        (parseFloatJS (seconds.getD 0 []))
    else if parts.length = 2 then
      jsAdd (jsMulConst (jsOfInt (parseIntJS (parts.getD 0 []))) 60)
        (parseFloatJS (seconds.getD 0 []))
    else
      parseFloatJS (seconds.getD 0 [])
  if 1 < seconds.length then
    jsAdd totalSeconds (parseFloatJS ('0' :: '.' :: seconds.getD 1 []))
  else totalSeconds

/-- View a Lean string literal as the character list the embedding
works on. -/
def str (s : String) : List Char := s.data

/-- Embedding of the cue objects pushed by `AudioPlayer.parseVTT`:
`startTime`, `endTime` and `text`. -/
structure Cue where
  startTime : JSNum
  endTime : JSNum
  text : List Char
deriving DecidableEq

/-- Shared shape of the `0 ≤ start ≤ end` check on a pair of JS
numbers; `false` when either is `NaN`. -/
def jsPairOkB : JSNum → JSNum → Bool
  | some x, some y => decide (0 ≤ x) && decide (x ≤ y)
  | _, _ => false

/-- The spec's cue invariant `0 ≤ startTime ≤ endTime`, as a Boolean
predicate on a cue; `false` when either endpoint is `NaN`. -/
def cueOkB (c : Cue) : Bool := jsPairOkB c.startTime c.endTime

/-- A line is nonblank when its trim is nonempty: the loop condition of
the text-collecting loop of `parseVTT`. -/
def nonblank (l : List Char) : Bool := !(trimChars l).isEmpty

/-- Inner loop of `AudioPlayer.parseVTT` (lines 249-255): accumulate
the trimmed following nonblank lines into the cue text, separated by
single spaces; returns the text and the remaining lines, which start at
the blank line (or end of input) that terminated the text. -/
def collectText : List (List Char) → List Char → List Char × List (List Char)
  | [], text => (text, [])
  | l :: ls, text =>
    if (trimChars l).isEmpty then (text, l :: ls)
    else collectText ls (if text.isEmpty then trimChars l else text ++ ' ' :: trimChars l)

/-- Blocks joined with a single space: the specification-level
description of the text accumulated by `collectText`. -/
def joinSpace : List (List Char) → List Char
  | [] => []
  | [b] => b
  | b :: bs => b ++ ' ' :: joinSpace bs

/-- Outer cue loop of `AudioPlayer.parseVTT` (lines 239-264): a line
whose trim contains the timing delimiter opens a cue whose times come
from `parseTimestamp` on the two trimmed delimiter-separated fields and
whose text is collected by `collectText`; the line after the text block
is skipped by the final increment of the loop; any other line is
ignored. -/
def parseCuesFuel : Nat → List Cue → List (List Char) → List Cue
  | 0, acc, _ => acc
  | fuel + 1, acc, lines =>
    match lines with
    | [] => acc
    | l :: rest =>
      let line := trimChars l
      if includesArrow line then
        let times := splitOnSeq arrowSeq line
        let st := parseTimestamp (trimChars (times.getD 0 []))
        let en := parseTimestamp (trimChars (times.getD 1 []))
        let tb := collectText rest []
        parseCuesFuel fuel (acc ++ [⟨st, en, tb.1⟩]) (tb.2.drop 1)
      else
        parseCuesFuel fuel acc rest

/-- `AudioPlayer.parseVTT` after the raw text has been split into
lines: skip every line up to the first one containing the timing
delimiter (lines 233-236), then run the cue loop. -/
def parseVTTLines (manualCues : List Cue) (lines : List (List Char)) : List Cue :=
  let afterHeader := lines.dropWhile (fun l => !includesArrow l)
  parseCuesFuel (afterHeader.length + 1) manualCues afterHeader

/-- Embedding of `AudioPlayer.parseVTT` (lines 229-267): split the raw
text on newlines and push the parsed cues onto the current `manualCues`
list, returning the new list. -/
def parseVTT (manualCues : List Cue) (vttText : List Char) : List Cue :=
  parseVTTLines manualCues (splitOnChar '\n' vttText)

/-- Goodness of a timing line: both trimmed timestamp fields parse to
finite values `x`, `y` with `0 ≤ x ≤ y` (used to state the amended cue
invariant). -/
def timingLineOkB (l : List Char) : Bool :=
  jsPairOkB (parseTimestamp (trimChars ((splitOnSeq arrowSeq (trimChars l)).getD 0 [])))
    (parseTimestamp (trimChars ((splitOnSeq arrowSeq (trimChars l)).getD 1 [])))

/-- JavaScript comparison `t >= a` where `a` may be `NaN`. -/
def jsGeB (t : ℚ) : JSNum → Bool
  | some x => decide (x ≤ t)
  | none => false

/-- JavaScript comparison `t <= a` where `a` may be `NaN`. -/
def jsLeB (t : ℚ) : JSNum → Bool
  | some x => decide (t ≤ x)
  | none => false

/-- The scan condition of `AudioPlayer.updateSubtitleByTime` (line
149): `currentTime >= cue.startTime && currentTime <= cue.endTime`. -/
def cueMatches (t : ℚ) (c : Cue) : Bool := jsGeB t c.startTime && jsLeB t c.endTime

/-- The scanning loops of `AudioPlayer.updateSubtitleByTime` (lines
147-153 and 157-163): the first cue in stored order whose interval
contains the given time, `none` when no cue matches. -/
def findCueLoop (cues : List Cue) (t : ℚ) : Option Cue :=
  match cues with
  | [] => none
  | c :: rest => if cueMatches t c then some c else findCueLoop rest t

/-- The display surface: the subtitle text node and its `active` class
flag. -/
structure Display where
  textContent : List Char
  active : Bool
deriving DecidableEq

/-- Cue list of an optional native track; `none` models a missing
track object or a track whose cue list is `null`. -/
def trackCues : Option (List Cue) → List Cue
  | some cs => cs
  | none => []

/-- Embedding of `AudioPlayer.updateSubtitleByTime` (lines 141-177) as
a function of the observed player state and the current display
surface: native cues are scanned when the track exposes at least one
cue, otherwise the manually parsed cues are scanned when nonempty; a
found cue is published with the active flag set, otherwise the ellipsis
placeholder is published (inactive) exactly when the time is positive
and playback is not paused, and otherwise the display is untouched. -/
def updateSubtitleByTime (track : Option (List Cue)) (manualCues : List Cue)
    (currentTime : ℚ) (paused : Bool) (d : Display) : Display :=
  let currentCue : Option Cue :=
    match track with
    | some cs =>
      if 0 < cs.length then findCueLoop cs currentTime
      else if 0 < manualCues.length then findCueLoop manualCues currentTime
      else none
    | none =>
      if 0 < manualCues.length then findCueLoop manualCues currentTime
      else none
  match currentCue with
  | some cue => { textContent := cue.text, active := true }
  | none =>
    if 0 < currentTime ∧ paused = false then { textContent := str "...", active := false }
    else d

/-- Embedding of the `pause` event listener (lines 96-101): only a
pause at playback position exactly `0` touches the display surface. -/
def onPause (currentTime : ℚ) (d : Display) : Display :=
  if currentTime = 0 then
    { textContent := str "Press play to start the audio guide...", active := false }
  else d

/-- Outcome of the primary transport (`fetch`): the promise resolves
with a response whose `ok` flag is the 2xx indicator, or it rejects
with a network error. -/
inductive FetchResult where
  | response (ok : Bool) (body : List Char)
  | netError
deriving DecidableEq

/-- Outcome of the secondary transport (`XMLHttpRequest`): `onload`
with a status and body, or `onerror`. -/
inductive XHRResult where
  | loaded (status : Nat) (body : List Char)
  | netError
deriving DecidableEq

/-- Observable events of the load path: parsing a body, invoking the
secondary transport, publishing a message on the display surface. -/
inductive LoadEvent where
  | parsed (body : List Char)
  | xhrAttempt
  | showMessage (msg : List Char)
deriving DecidableEq

/-- Embedding of `AudioPlayer.loadVTTWithXHR` (lines 204-224): on load
with status 200, or status 0 signaling a local file, the body is
parsed; any other status, or a network error, publishes a terminal
failure message on the display surface. -/
def loadVTTWithXHR (x : XHRResult) : List LoadEvent :=
  match x with
  | XHRResult.loaded status body =>
    if status = 200 ∨ status = 0 then [LoadEvent.parsed body]
    else [LoadEvent.showMessage (str "Unable to load subtitles. Please use a local server or try Safari.")]
  | XHRResult.netError =>
    [LoadEvent.showMessage (str "Subtitles unavailable in this browser. Try Safari or use a local server.")]

/-- Embedding of `AudioPlayer.loadVTTManually` (lines 182-199): a 2xx
response is parsed; a rejected promise, or a non-2xx status (which the
code turns into a rejection), invokes the secondary transport once. -/
def loadVTTManually (f : FetchResult) (x : XHRResult) : List LoadEvent :=
  match f with
  | FetchResult.response ok body =>
    if ok then [LoadEvent.parsed body]
    else LoadEvent.xhrAttempt :: loadVTTWithXHR x
  | FetchResult.netError => LoadEvent.xhrAttempt :: loadVTTWithXHR x

/-- Number of secondary-transport invocations in an event trace. -/
def countXhrAttempts : List LoadEvent → Nat
  | [] => 0
  | LoadEvent.xhrAttempt :: rest => countXhrAttempts rest + 1
  | _ :: rest => countXhrAttempts rest

/-- Number of display-surface messages in an event trace. -/
def countShowMessages : List LoadEvent → Nat
  | [] => 0
  | LoadEvent.showMessage _ :: rest => countShowMessages rest + 1
  | _ :: rest => countShowMessages rest

/-- The primary transport failed: rejected promise or non-2xx status. -/
def fetchFailedB : FetchResult → Bool
  | FetchResult.response ok _ => !ok
  | FetchResult.netError => true

/-- The secondary transport failed: `onerror`, or `onload` with a
status that is neither 200 nor 0. -/
def xhrFailedB : XHRResult → Bool
  | XHRResult.loaded status _ => !(decide (status = 200 ∨ status = 0))
  | XHRResult.netError => true

/-- A scan over cues none of which matches returns no cue. -/
theorem findCueLoop_eq_none (cues : List Cue) (t : ℚ)
    (h : ∀ c ∈ cues, cueMatches t c = false) : findCueLoop cues t = none := by
  induction cues with
  | nil => rfl
  | cons c rest ih =>
    have hc : cueMatches t c = false := h c (List.mem_cons_self c rest)
    simp only [findCueLoop, hc, Bool.false_eq_true, if_false]
    exact ih fun c' hc' => h c' (List.mem_cons_of_mem c hc')

/-- Dropping a while-prefix that the predicate accepts entirely. -/
theorem dropWhile_append_all {α : Type} (p : α → Bool) (pre ls : List α)
    (h : ∀ l ∈ pre, p l = true) :
    (pre ++ ls).dropWhile p = ls.dropWhile p := by
  induction pre with
  | nil => rfl
  | cons a pre ih =>
    have ha : p a = true := h a (List.mem_cons_self a pre)
    simp only [List.cons_append, List.dropWhile, ha]
    exact ih fun l hl => h l (List.mem_cons_of_mem a hl)

/-- The lines left over by the text-collecting loop are the input lines
with their nonblank while-prefix dropped. -/
theorem collectText_snd (ls : List (List Char)) : ∀ t, (collectText ls t).2 = ls.dropWhile nonblank := by
  induction ls with
  | nil => intro t; rfl
  | cons l ls ih =>
    intro t
    by_cases h : (trimChars l).isEmpty = true
    · simp [collectText, h, List.dropWhile, nonblank]
    · simp only [Bool.not_eq_true] at h
      simp [collectText, h, List.dropWhile, nonblank, ih]

/-- Gluing a space-joined head block into `joinSpace`. -/
theorem joinSpace_glue (t b : List Char) (bs : List (List Char)) :
    joinSpace ((t ++ ' ' :: b) :: bs) = t ++ ' ' :: joinSpace (b :: bs) := by
  cases bs with
  | nil => rfl
  | cons b' bs => simp [joinSpace, List.append_assoc]

/-- The text accumulated by the collecting loop on top of a nonempty
accumulator is the space-join of the accumulator and the trimmed
nonblank while-prefix of the lines. -/
theorem collectText_fst_acc (ls : List (List Char)) : ∀ t, t.isEmpty = false →
    (collectText ls t).1 = joinSpace (t :: (ls.takeWhile nonblank).map trimChars) := by
  induction ls with
  | nil => intro t ht; simp [collectText, joinSpace]
  | cons l ls ih =>
    intro t ht
    by_cases h : (trimChars l).isEmpty = true
    · simp [collectText, h, nonblank, List.takeWhile, joinSpace]
    · simp only [Bool.not_eq_true] at h
      have ht' : (t ++ ' ' :: trimChars l).isEmpty = false := by
        cases t <;> rfl
      have hne : t.isEmpty = true ↔ False := by simp [ht]
      simp only [collectText, h, Bool.false_eq_true, if_false, ht, List.takeWhile,
        nonblank, Bool.not_false, List.map_cons]
      rw [ih _ ht']
      exact joinSpace_glue t (trimChars l) _

/-- The text accumulated by the collecting loop started empty is the
space-join of the trimmed nonblank while-prefix of the lines. -/
theorem collectText_fst (ls : List (List Char)) :
    (collectText ls []).1 = joinSpace ((ls.takeWhile nonblank).map trimChars) := by
  cases ls with
  | nil => rfl
  | cons l ls =>
    by_cases h : (trimChars l).isEmpty = true
    · simp [collectText, h, nonblank, List.takeWhile, joinSpace]
    · simp only [Bool.not_eq_true] at h
      have hne : (trimChars l).isEmpty = false := h
      simp only [collectText, h, Bool.false_eq_true, if_false, List.isEmpty_nil, if_true,
        List.takeWhile, nonblank, hne, Bool.not_false, List.map_cons]
      exact collectText_fst_acc ls (trimChars l) hne

/-- The cue loop distributes over its accumulator: cues already pushed
stay in front, in order and unmodified. -/
theorem parseCuesFuel_append (fuel : Nat) : ∀ (acc : List Cue) (lines : List (List Char)),
    parseCuesFuel fuel acc lines = acc ++ parseCuesFuel fuel [] lines := by
  induction fuel with
  | zero => intro acc lines; simp [parseCuesFuel]
  | succ fuel ih =>
    intro acc lines
    cases lines with
    | nil => simp [parseCuesFuel]
    | cons l rest =>
      by_cases h : includesArrow (trimChars l) = true
      · simp only [parseCuesFuel, h, if_true]
        rw [ih, ih ([] ++ [_])]
        simp
      · simp only [Bool.not_eq_true] at h
        simp only [parseCuesFuel, h, Bool.false_eq_true, if_false]
        exact ih acc rest

/-- Membership survives `dropWhile`. -/
theorem mem_of_mem_dropWhile {α : Type} (p : α → Bool) (ls : List α) (a : α)
    (h : a ∈ ls.dropWhile p) : a ∈ ls := by
  induction ls with
  | nil => exact h
  | cons x xs ih =>
    by_cases hx : p x = true
    · simp only [List.dropWhile, hx] at h
      exact List.mem_cons_of_mem x (ih h)
    · simp only [Bool.not_eq_true] at hx
      simp only [List.dropWhile, hx] at h
      simpa using h

/-- Membership survives dropping the head line. -/
theorem mem_of_mem_drop_one {α : Type} (ls : List α) (a : α) (h : a ∈ ls.drop 1) : a ∈ ls := by
  cases ls with
  | nil => exact h
  | cons x xs => exact List.mem_cons_of_mem x h

/-- Every cue the cue loop appends from lines whose timing lines are
good satisfies the `0 ≤ start ≤ end` invariant, provided the
accumulator already does. -/
theorem parseCuesFuel_ok (fuel : Nat) : ∀ (acc : List Cue) (lines : List (List Char)),
    (∀ c ∈ acc, cueOkB c = true) →
    (∀ l ∈ lines, includesArrow (trimChars l) = true → timingLineOkB l = true) →
    ∀ c ∈ parseCuesFuel fuel acc lines, cueOkB c = true := by
  induction fuel with
  | zero =>
    intro acc lines hacc _ c hc
    exact hacc c (by simpa [parseCuesFuel] using hc)
  | succ fuel ih =>
    intro acc lines hacc hl c hc
    cases lines with
    | nil => exact hacc c (by simpa [parseCuesFuel] using hc)
    | cons l rest =>
      by_cases h : includesArrow (trimChars l) = true
      · have hcue : timingLineOkB l = true := hl l (List.mem_cons_self l rest) h
        simp only [timingLineOkB] at hcue
        simp only [parseCuesFuel, h, if_true] at hc
        refine ih _ _ ?_ ?_ c hc
        · intro c' hc'
          rcases List.mem_append.mp hc' with h1 | h2
          · exact hacc c' h1
          · rw [List.mem_singleton] at h2
            subst h2
            simp only [cueOkB]
            exact hcue
        · intro l' hl' harr
          refine hl l' (List.mem_cons_of_mem l ?_) harr
          have h2 : l' ∈ (collectText rest []).2 := mem_of_mem_drop_one _ _ hl'
          rw [collectText_snd] at h2
          exact mem_of_mem_dropWhile _ _ _ h2
      · simp only [Bool.not_eq_true] at h
        simp only [parseCuesFuel, h, Bool.false_eq_true, if_false] at hc
        refine ih _ _ hacc ?_ c hc
        intro l' hl' harr
        exact hl l' (List.mem_cons_of_mem l hl') harr

/-- C3: resolving the active cue scans the track in stored insertion
order and returns the first cue whose interval contains the time
inclusively, so the earliest-inserted of overlapping cues wins; in
particular with A covering [0,5] before B covering [2,7], resolving at
time 3 returns A. -/
theorem c3_first_match_wins :
    (∀ (pre post : List Cue) (c : Cue) (t : ℚ),
      (∀ c' ∈ pre, cueMatches t c' = false) → cueMatches t c = true →
      findCueLoop (pre ++ c :: post) t = some c)
  ∧ findCueLoop [⟨some 0, some 5, str "A"⟩, ⟨some 2, some 7, str "B"⟩] 3 =
      some ⟨some 0, some 5, str "A"⟩ := by
  constructor
  · intro pre post c t hpre hc
    induction pre with
    | nil => simp [findCueLoop, hc]
    | cons p pre ih =>
      have hp : cueMatches t p = false := hpre p (List.mem_cons_self p pre)
      simp only [List.cons_append, findCueLoop, hp, Bool.false_eq_true, if_false]
      exact ih fun c' h => hpre c' (List.mem_cons_of_mem p h)
  · decide

/-- Witness for C3 at a concrete track with a non-matching cue in
front of the two overlapping ones. -/
theorem c3_witness :
    findCueLoop [⟨some 10, some 11, str "N"⟩, ⟨some 0, some 5, str "A"⟩, ⟨some 2, some 7, str "B"⟩] 3 =
      some ⟨some 0, some 5, str "A"⟩ :=
  c3_first_match_wins.1 [⟨some 10, some 11, str "N"⟩] [⟨some 2, some 7, str "B"⟩]
    ⟨some 0, some 5, str "A"⟩ 3 (by decide) (by decide)

/-- C7 (amended): `parseVTT` appends the cues encoded in the raw text
to the track that was stored before the call — it does not replace the
track wholesale; the previously stored cues are preserved in front, in
order and unmodified, so the result equals exactly the cues of the raw
text only when the track was empty before the call. -/
theorem c7_parse_appends :
    ∀ (prior : List Cue) (vttText : List Char),
      parseVTT prior vttText = prior ++ parseVTT [] vttText := by
  intro prior text
  simp only [parseVTT, parseVTTLines]
  exact parseCuesFuel_append _ _ _

/-- Counterexample to C7 as stated: with a cue already stored, the
track after `parseVTT` is not the cue list of the raw text alone. -/
theorem c7_counterexample :
    parseVTT [⟨some 100, some 200, str "old"⟩] (str "WEBVTT\n\n00:00:01.000 --> 00:00:03.000\nHello") =
      [⟨some 100, some 200, str "old"⟩, ⟨some 1, some 3, str "Hello"⟩]
    ∧ parseVTT [] (str "WEBVTT\n\n00:00:01.000 --> 00:00:03.000\nHello") =
      [⟨some 1, some 3, str "Hello"⟩] := by
  exact ⟨by decide, by decide⟩

/-- C9: whenever the native track exposes at least one cue, the result
of a time update is independent of the manually parsed cue list — the
manual cues are never consulted. -/
theorem c9_native_track_only :
    ∀ (cs m1 m2 : List Cue) (t : ℚ) (p : Bool) (d : Display),
      cs ≠ [] →
      updateSubtitleByTime (some cs) m1 t p d = updateSubtitleByTime (some cs) m2 t p d := by
  intro cs m1 m2 t p d hne
  have hlen : 0 < cs.length := List.length_pos.mpr hne
  simp [updateSubtitleByTime, hlen]

/-- Witness for C9: the native cue does not match at time 3 while a
manual cue does, yet the manual list makes no difference. -/
theorem c9_witness :
    updateSubtitleByTime (some [⟨some 10, some 20, str "N"⟩]) [] 3 false ⟨str "x", true⟩ =
      updateSubtitleByTime (some [⟨some 10, some 20, str "N"⟩]) [⟨some 0, some 5, str "M"⟩] 3 false
        ⟨str "x", true⟩ :=
  c9_native_track_only [⟨some 10, some 20, str "N"⟩] [] [⟨some 0, some 5, str "M"⟩] 3 false
    ⟨str "x", true⟩ (by decide)

/-- C10: the pause handler touches the display surface only when the
playback position is exactly 0 (setting the start prompt and clearing
the active flag); pausing at a positive position changes nothing. -/
theorem c10_pause_only_at_zero :
    ∀ (t : ℚ) (d : Display),
      (t = 0 → onPause t d = ⟨str "Press play to start the audio guide...", false⟩)
    ∧ (0 < t → onPause t d = d) := by
  intro t d
  constructor
  · intro h
    simp [onPause, h]
  · intro h
    simp [onPause, ne_of_gt h]

/-- Witness for C10 at position 0 and position 2. -/
theorem c10_witness :
    onPause 0 ⟨str "s", true⟩ = ⟨str "Press play to start the audio guide...", false⟩
    ∧ onPause 2 ⟨str "s", true⟩ = ⟨str "s", true⟩ :=
  ⟨(c10_pause_only_at_zero 0 ⟨str "s", true⟩).1 rfl,
   (c10_pause_only_at_zero 2 ⟨str "s", true⟩).2 (by decide)⟩

/-- When no cue matches anywhere, a time update reduces to the final
branch of `updateSubtitleByTime`: ellipsis when playing at a positive
time, otherwise the display is untouched. -/
theorem updateSubtitleByTime_no_match (track : Option (List Cue)) (mc : List Cue)
    (t : ℚ) (p : Bool) (d : Display)
    (hn : ∀ c ∈ trackCues track, cueMatches t c = false)
    (hm : ∀ c ∈ mc, cueMatches t c = false) :
    updateSubtitleByTime track mc t p d =
      if 0 < t ∧ p = false then ⟨str "...", false⟩ else d := by
  cases track with
  | none =>
    by_cases h : 0 < mc.length
    · simp [updateSubtitleByTime, h, findCueLoop_eq_none mc t hm]
    · simp [updateSubtitleByTime, h]
  | some cs =>
    have hn' : ∀ c ∈ cs, cueMatches t c = false := by simpa [trackCues] using hn
    by_cases h : 0 < cs.length
    · simp [updateSubtitleByTime, h, findCueLoop_eq_none cs t hn']
    · by_cases h2 : 0 < mc.length
      · simp [updateSubtitleByTime, h, h2, findCueLoop_eq_none mc t hm]
      · simp [updateSubtitleByTime, h, h2]

/-- C4: on a time update where no cue's interval contains the time, the
display surface is set to the ellipsis placeholder and marked inactive
exactly when the time is positive and playback is not paused; when the
time is 0 or playback is paused, the display surface is untouched. -/
theorem c4_idle_vs_unstarted :
    ∀ (track : Option (List Cue)) (mc : List Cue) (t : ℚ) (p : Bool) (d : Display),
      (∀ c ∈ trackCues track, cueMatches t c = false) →
      (∀ c ∈ mc, cueMatches t c = false) →
      ((0 < t ∧ p = false → updateSubtitleByTime track mc t p d = ⟨str "...", false⟩)
       ∧ ((t = 0 ∨ p = true) → updateSubtitleByTime track mc t p d = d)) := by
  intro track mc t p d hn hm
  rw [updateSubtitleByTime_no_match track mc t p d hn hm]
  constructor
  · intro h
    simp [h]
  · rintro (h | h)
    · subst h
      simp
    · subst h
      simp

/-- Witness for C4: time 4 playing publishes the ellipsis, time 0
paused leaves the display untouched. -/
theorem c4_witness :
    updateSubtitleByTime none [] 4 false ⟨str "x", true⟩ = ⟨str "...", false⟩
    ∧ updateSubtitleByTime none [] 0 true ⟨str "x", true⟩ = ⟨str "x", true⟩ :=
  ⟨(c4_idle_vs_unstarted none [] 4 false ⟨str "x", true⟩ (by decide) (by decide)).1
      ⟨by decide, rfl⟩,
   (c4_idle_vs_unstarted none [] 0 true ⟨str "x", true⟩ (by decide) (by decide)).2
      (Or.inl rfl)⟩

/-- Counterexample to C6 as stated: the parser happily produces a cue
whose start time exceeds its end time, violating the claimed invariant
`0 ≤ startTime ≤ endTime`. -/
theorem c6_counterexample :
    parseVTT [] (str "5.000 --> 3.000\nHi") = [⟨some 5, some 3, str "Hi"⟩]
    ∧ cueOkB ⟨some 5, some 3, str "Hi"⟩ = false := by
  exact ⟨by decide, by decide⟩

/-- C6 (amended): the invariant `0 ≤ startTime ≤ endTime` holds for
every cue `parseVTT` appends, provided every line of the input that
contains the timing delimiter has both trimmed timestamp fields parsing
to finite values `x ≤ y` with `0 ≤ x`; the parser itself enforces
nothing, so a timing line with its end before its start (or a negative
or unparsable field) yields a cue violating the invariant. -/
theorem c6_amended_invariant :
    ∀ (vttText : List Char),
      (∀ l ∈ splitOnChar '\n' vttText,
        includesArrow (trimChars l) = true → timingLineOkB l = true) →
      ∀ c ∈ parseVTT [] vttText, cueOkB c = true := by
  intro text hgood c hc
  simp only [parseVTT, parseVTTLines] at hc
  refine parseCuesFuel_ok _ _ _ (by simp) ?_ c hc
  intro l hl harr
  exact hgood l (mem_of_mem_dropWhile _ _ _ hl) harr

/-- Witness for C6 (amended) on a well-ordered concrete input. -/
theorem c6_witness : cueOkB ⟨some 1, some 3, str "Hello"⟩ = true :=
  c6_amended_invariant (str "00:00:01.000 --> 00:00:03.000\nHello") (by decide)
    ⟨some 1, some 3, str "Hello"⟩ (by decide)

/-- C8: timestamp parsing is total in the embedding and a malformed
field yields `0` or `NaN` rather than an error; the resulting
degenerate cue is appended normally and participates in resolution — a
`NaN`-timed cue can never match, while a field parsing to `0` gives a
cue matching exactly at time 0. -/
theorem c8_malformed_degenerate :
    (∀ (t : ℚ) (c : Cue), c.startTime = none → cueMatches t c = false)
  ∧ parseTimestamp (str "abc") = none
  ∧ parseTimestamp (str "0garbage") = some 0
  ∧ parseVTT [] (str "WEBVTT\n\nabc --> def\nHi") = [⟨none, none, str "Hi"⟩]
  ∧ (∀ t : ℚ, findCueLoop [⟨none, none, str "Hi"⟩] t = none)
  ∧ parseVTT [] (str "0x --> 0y\nHi") = [⟨some 0, some 0, str "Hi"⟩]
  ∧ findCueLoop [⟨some 0, some 0, str "Hi"⟩] 0 = some ⟨some 0, some 0, str "Hi"⟩ := by
  refine ⟨?_, by decide, by decide, by decide, ?_, by decide, by decide⟩
  · intro t c h
    simp [cueMatches, h, jsGeB]
  · intro t
    simp [findCueLoop, cueMatches, jsGeB]

/-- Witness for C8: a `NaN`-timed degenerate cue never matches. -/
theorem c8_witness : cueMatches 1 ⟨none, none, str "Hi"⟩ = false :=
  c8_malformed_degenerate.1 1 ⟨none, none, str "Hi"⟩ rfl

/-- The secondary transport never invokes itself again: its trace holds
no further load attempt. -/
theorem countXhrAttempts_loadVTTWithXHR (x : XHRResult) :
    countXhrAttempts (loadVTTWithXHR x) = 0 := by
  cases x with
  | loaded s b =>
    by_cases h : s = 200 ∨ s = 0
    · simp [loadVTTWithXHR, h, countXhrAttempts]
    · simp [loadVTTWithXHR, h, countXhrAttempts]
  | netError => rfl

/-- A failed secondary transport publishes exactly one message. -/
theorem countShowMessages_loadVTTWithXHR_failed (x : XHRResult) (h : xhrFailedB x = true) :
    countShowMessages (loadVTTWithXHR x) = 1 := by
  cases x with
  | loaded s b =>
    have h' : ¬(s = 200 ∨ s = 0) := by simpa [xhrFailedB] using h
    simp [loadVTTWithXHR, h', countShowMessages]
  | netError => rfl

/-- C5: when the primary transport fails, the secondary transport is
invoked exactly once; the secondary transport's body is parsed when its
status is 200 or 0 (local-file convention); when the secondary
transport also fails, exactly one terminal failure message reaches the
display surface and no further load attempt occurs. -/
theorem c5_fallback_chain :
    ∀ (f : FetchResult) (x : XHRResult),
      (fetchFailedB f = true → countXhrAttempts (loadVTTManually f x) = 1)
    ∧ (fetchFailedB f = true → ∀ (s : Nat) (b : List Char),
        x = XHRResult.loaded s b → s = 200 ∨ s = 0 →
        LoadEvent.parsed b ∈ loadVTTManually f x)
    ∧ (fetchFailedB f = true → xhrFailedB x = true →
        countShowMessages (loadVTTManually f x) = 1
        ∧ countXhrAttempts (loadVTTManually f x) = 1) := by
  intro f x
  have htrace : fetchFailedB f = true →
      loadVTTManually f x = LoadEvent.xhrAttempt :: loadVTTWithXHR x := by
    intro hf
    cases f with
    | response ok body =>
      have hok : ok = false := by simpa [fetchFailedB] using hf
      simp [loadVTTManually, hok]
    | netError => rfl
  refine ⟨?_, ?_, ?_⟩
  · intro hf
    rw [htrace hf]
    simp [countXhrAttempts, countXhrAttempts_loadVTTWithXHR]
  · intro hf s b hx hs
    rw [htrace hf, hx]
    simp [loadVTTWithXHR, hs]
  · intro hf hx
    rw [htrace hf]
    constructor
    · simp [countShowMessages_loadVTTWithXHR_failed x hx, countShowMessages]
    · simp [countXhrAttempts, countXhrAttempts_loadVTTWithXHR]

/-- Witness for C5: primary rejected with the secondary succeeding at
status 200, and primary rejected with the secondary erroring. -/
theorem c5_witness :
    countXhrAttempts (loadVTTManually FetchResult.netError (XHRResult.loaded 200 (str "WEBVTT"))) = 1
    ∧ LoadEvent.parsed (str "WEBVTT") ∈
        loadVTTManually FetchResult.netError (XHRResult.loaded 200 (str "WEBVTT"))
    ∧ countShowMessages (loadVTTManually FetchResult.netError XHRResult.netError) = 1
    ∧ countXhrAttempts (loadVTTManually FetchResult.netError XHRResult.netError) = 1 :=
  ⟨(c5_fallback_chain FetchResult.netError (XHRResult.loaded 200 (str "WEBVTT"))).1 rfl,
   (c5_fallback_chain FetchResult.netError (XHRResult.loaded 200 (str "WEBVTT"))).2.1 rfl 200
     (str "WEBVTT") rfl (Or.inl rfl),
   ((c5_fallback_chain FetchResult.netError XHRResult.netError).2.2 rfl rfl).1,
   ((c5_fallback_chain FetchResult.netError XHRResult.netError).2.2 rfl rfl).2⟩

/-- C2: `parseVTT` skips every line before the first one containing the
timing delimiter; a line containing the delimiter opens a cue whose
start and end come from parsing the two trimmed delimiter-separated
fields and whose text is the immediately following nonblank lines,
trimmed and joined with single spaces, terminated by a blank line or
the end of input (which is then stepped over); and the concrete example
yields exactly one cue with times 1 and 3 and text `Hello world`. -/
theorem c2_parseVTT_contract :
    parseVTT [] (str "00:00:01.000 --> 00:00:03.000\nHello\nworld\n\n") =
      [⟨some 1, some 3, str "Hello world"⟩]
  ∧ (∀ (prior : List Cue) (pre ls : List (List Char)),
      (∀ l ∈ pre, includesArrow l = false) →
      parseVTTLines prior (pre ++ ls) = parseVTTLines prior ls)
  ∧ (∀ (prior : List Cue) (l : List Char) (rest : List (List Char)),
      includesArrow l = true → includesArrow (trimChars l) = true →
      parseVTTLines prior (l :: rest) =
        parseCuesFuel (rest.length + 1)
          (prior ++ [⟨parseTimestamp (trimChars ((splitOnSeq arrowSeq (trimChars l)).getD 0 [])),
                      parseTimestamp (trimChars ((splitOnSeq arrowSeq (trimChars l)).getD 1 [])),
                      joinSpace ((rest.takeWhile nonblank).map trimChars)⟩])
          ((rest.dropWhile nonblank).drop 1)) := by
  refine ⟨by decide, ?_, ?_⟩
  · intro prior pre ls hpre
    simp only [parseVTTLines]
    rw [dropWhile_append_all _ pre ls (by intro l hl; simp [hpre l hl])]
  · intro prior l rest h1 h2
    simp only [parseVTTLines, List.dropWhile, h1, Bool.not_true, Bool.false_eq_true, if_false,
      List.length_cons]
    simp only [parseCuesFuel, h2, if_true]
    rw [collectText_fst, collectText_snd]

/-- Witness for C2: header and blank lines in front of the cue lines
are skipped. -/
theorem c2_witness :
    parseVTTLines [] ([str "WEBVTT", str ""] ++ [str "1.000 --> 2.000", str "Hi"]) =
      parseVTTLines [] [str "1.000 --> 2.000", str "Hi"] :=
  c2_parseVTT_contract.2.1 [] [str "WEBVTT", str ""] [str "1.000 --> 2.000", str "Hi"] (by decide)

/-- C1: `parseTimestamp` computes `H*3600 + M*60 + S + 0.fff`, deciding
which of hours, minutes and seconds are present by the count of
colon-delimited fields (3 fields give H, M, S; 2 give M, S; 1 gives S
only; the fractional part is optional); in particular it maps
`00:01:05.250` and `01:05.250` to `65.25` and `5.250` to `5.25`. -/
theorem c1_parseTimestamp_grammar :
    (∀ (ts hs ms ss ws fs : List Char) (H M : Int) (S F : ℚ),
      splitOnChar ':' ts = [hs, ms, ss] →
      splitOnChar '.' ss = [ws, fs] →
      parseIntJS hs = some H → parseIntJS ms = some M →
      parseFloatJS ws = some S → parseFloatJS ('0' :: '.' :: fs) = some F →
      parseTimestamp ts = some ((H : ℚ) * 3600 + (M : ℚ) * 60 + S + F))
  ∧ (∀ (ts ms ss ws fs : List Char) (M : Int) (S F : ℚ),
      splitOnChar ':' ts = [ms, ss] →
      splitOnChar '.' ss = [ws, fs] →
      parseIntJS ms = some M →
      parseFloatJS ws = some S → parseFloatJS ('0' :: '.' :: fs) = some F →
      parseTimestamp ts = some ((M : ℚ) * 60 + S + F))
  ∧ (∀ (ts ws fs : List Char) (S F : ℚ),
      splitOnChar ':' ts = [ts] →
      splitOnChar '.' ts = [ws, fs] →
      parseFloatJS ws = some S → parseFloatJS ('0' :: '.' :: fs) = some F →
      parseTimestamp ts = some (S + F))
  ∧ (∀ (ts hs ms ss ws : List Char) (H M : Int) (S : ℚ),
      splitOnChar ':' ts = [hs, ms, ss] →
      splitOnChar '.' ss = [ws] →
      parseIntJS hs = some H → parseIntJS ms = some M →
      parseFloatJS ws = some S →
      parseTimestamp ts = some ((H : ℚ) * 3600 + (M : ℚ) * 60 + S))
  ∧ parseTimestamp (str "00:01:05.250") = some (65.25 : ℚ)
  ∧ parseTimestamp (str "01:05.250") = some (65.25 : ℚ)
  ∧ parseTimestamp (str "5.250") = some (5.25 : ℚ) := by
  refine ⟨?_, ?_, ?_, ?_, by decide, by decide, by decide⟩
  · intro ts hs ms ss ws fs H M S F h1 h2 hH hM hS hF
    have hlast : (splitOnChar ':' ts).getD ((splitOnChar ':' ts).length - 1) [] = ss := by
      rw [h1]
      rfl
    simp [parseTimestamp, h1, h2, hH, hM, hS, hF, hlast, jsAdd, jsMulConst, jsOfInt]
  · intro ts ms ss ws fs M S F h1 h2 hM hS hF
    have hlast : (splitOnChar ':' ts).getD ((splitOnChar ':' ts).length - 1) [] = ss := by
      rw [h1]
      rfl
    simp [parseTimestamp, h1, h2, hM, hS, hF, hlast, jsAdd, jsMulConst, jsOfInt]
  · intro ts ws fs S F h1 h2 hS hF
    have hlast : (splitOnChar ':' ts).getD ((splitOnChar ':' ts).length - 1) [] = ts := by
      rw [h1]
      rfl
    simp [parseTimestamp, h1, h2, hS, hF, hlast, jsAdd, jsMulConst, jsOfInt]
  · intro ts hs ms ss ws H M S h1 h2 hH hM hS
    have hlast : (splitOnChar ':' ts).getD ((splitOnChar ':' ts).length - 1) [] = ss := by
      rw [h1]
      rfl
    simp [parseTimestamp, h1, h2, hH, hM, hS, hlast, jsAdd, jsMulConst, jsOfInt]

/-- Witness for C1 on the three-field form with a fractional part. -/
theorem c1_witness :
    parseTimestamp (str "00:00:02.500") = some (((0 : Int) : ℚ) * 3600 + ((0 : Int) : ℚ) * 60 + 2 + 5 / 10) :=
  c1_parseTimestamp_grammar.1 (str "00:00:02.500") (str "00") (str "00") (str "02.500")
    (str "02") (str "500") 0 0 2 (5 / 10) (by decide) (by decide) (by decide) (by decide)
    (by decide) (by decide)
